import Mathlib

/-!
# grawler: a worker-pool web crawler

A shallow embedding of `20181208/grawler/grawler.go`.

* The Go `map[string]int` inside `UrlManager` is an association list read with
  `mapGet` (zero value for a missing key) and written with `mapSet`.
* The three library calls the program makes (`url.Parse`, `http.Get`,
  `html.Parse`) are collected in `Env`; `http.Get` is indexed by the number of
  requests already made, so a site may answer differently on each attempt.
* `*html.Node` is a first-child / next-sibling tree; `Node.nil` is the nil pointer.
* The channels are lists: `urls` holds the strings waiting to be received by a
  worker, `result` the strings sent on the result channel.  The mutex of
  `UrlManager` makes each of its methods atomic; the embedding runs one job at
  a time, the goroutine started by `parse` finishing before the next job is
  received.
-/

namespace Grawler

/-! ## Library types -/

/-- The part of `url.URL` the program reads. -/
structure URL where
  Host : String
deriving DecidableEq, Repr

/-- The node kinds of `golang.org/x/net/html`. -/
inductive NodeType where
  | ErrorNode
  | TextNode
  | DocumentNode
  | ElementNode
  | CommentNode
  | DoctypeNode
  | RawNode
deriving DecidableEq, Repr

/-- An `html.Attribute`. -/
structure Attribute where
  Namespace : String
  Key : String
  Val : String
deriving DecidableEq, Repr

/-- A `*html.Node`: `nil`, or a node with its type, data, attributes and the
pointers to its first child and its next sibling. -/
inductive Node where
  | nil : Node
  | node (Typ : NodeType) (Data : String) (Attr : List Attribute)
      (FirstChild NextSibling : Node) : Node
deriving DecidableEq, Repr

/-- The library calls of the program. `urlParse` is `url.Parse`, `httpGet n u`
is the response body of `http.Get(u)` when `n` requests were made before it,
`htmlParse` is `html.Parse`. An error is `Except.error`. -/
structure Env where
  urlParse : String → Except String URL
  httpGet : Nat → String → Except String String
  htmlParse : String → Except String Node

/-! ## UrlManager -/

/-- Reading `m[k]` of a Go map: the zero value when `k` has no entry. -/
def mapGet : List (String × Nat) → String → Nat
  | [], _ => 0
  | (k', v) :: rest, k => if k' = k then v else mapGet rest k

/-- Writing `m[k] = v` of a Go map: the entry of `k` is overwritten, or a new
entry is made when there is none. -/
def mapSet : List (String × Nat) → String → Nat → List (String × Nat)
  | [], k, v => [(k, v)]
  | (k', v') :: rest, k, v =>
    if k' = k then (k, v) :: rest else (k', v') :: mapSet rest k v

/-- The keys of a Go map. -/
def mapKeys (d : List (String × Nat)) : List String := d.map Prod.fst

/-- The struct `UrlManager`, without its mutex. -/
structure UrlManager where
  data : List (String × Nat)
deriving DecidableEq, Repr

/-- The constant `UNVISITED = iota + 1`. -/
def UNVISITED : Nat := 1

/-- The constant `VISITED`, the next one of the same block. -/
def VISITED : Nat := 2

/-- The initial value `&UrlManager{data: make(map[string]int)}`. -/
def urlManager : UrlManager := ⟨[]⟩

/-- The function `checkUrlValidation`. -/
def checkUrlValidation (env : Env) (rawUrl : String) : Bool :=
  match env.urlParse rawUrl with
  | .error _ => false
  | .ok u => decide (u.Host.length > 0)

/-- The method `addUrl`. -/
def UrlManager.addUrl (env : Env) (this : UrlManager) (url : String) : UrlManager :=
  if checkUrlValidation env url && mapGet this.data url == 0 then
    ⟨mapSet this.data url UNVISITED⟩
  else this

/-- The method `markAsVisited`. -/
def UrlManager.markAsVisited (this : UrlManager) (url : String) : UrlManager :=
  if mapGet this.data url == UNVISITED then
    ⟨mapSet this.data url VISITED⟩
  else this

/-- The method `isVisited`. -/
def UrlManager.isVisited (this : UrlManager) (url : String) : Bool :=
  mapGet this.data url == VISITED

/-! ## The crawler -/

/-- The shared state of the goroutines: the global `urlManager`, the strings
waiting on the job channel, the strings sent on the result channel, and the
addresses given to `http.Get` so far. -/
structure State where
  urlManager : UrlManager
  urls : List String
  result : List String
  fetched : List String
deriving DecidableEq, Repr

/-- The function `fetch`, as the `n`-th request. -/
def fetch (env : Env) (n : Nat) (url : String) : Except String Node :=
  match env.httpGet n url with
  | .error err => .error err
  | .ok body =>
    match env.htmlParse body with
    | .error err => .error err
    | .ok doc => .ok doc

/-- The loop `for _, attr := range node.Attr` inside `p`. -/
def pAttr (env : Env) : List Attribute → State → State
  | [], s => s
  | attr :: rest, s =>
    if attr.Key == "href" && checkUrlValidation env attr.Val then
      pAttr env rest
        { s with urlManager := s.urlManager.addUrl env attr.Val,
                 urls := s.urls ++ [attr.Val] }
    else pAttr env rest s

/-- What `p` does at one node before it goes to the children. -/
def pNode (env : Env) (typ : NodeType) (data : String) (attr : List Attribute)
    (s : State) : State :=
  if typ == NodeType.ElementNode && data == "a" then pAttr env attr s else s

/-- The loop `for c := ...; c != nil; c = c.NextSibling { p(c) }`, started at
`c`, with the body of `p` written out. -/
def pSiblings (env : Env) : Node → State → State
  | .nil, s => s
  | .node typ data attr firstChild nextSibling, s =>
    pSiblings env nextSibling (pSiblings env firstChild (pNode env typ data attr s))

/-- The closure `p` of `parse`. `html.Parse` returns a node whenever it
returns no error, so `p` is never called on `nil`; that case has no effect here. -/
def p (env : Env) : Node → State → State
  | .nil, s => s
  | .node typ data attr firstChild _, s =>
    pSiblings env firstChild (pNode env typ data attr s)

/-- The function `parse`, its goroutine run to the end. -/
def parse (env : Env) (doc : Node) (s : State) : State := p env doc s

/-- The function `crawl`. -/
def crawl (env : Env) (url : String) (s : State) : State :=
  if s.urlManager.isVisited url then s
  else
    match fetch env s.fetched.length url with
    | .error _ =>
      { s with fetched := s.fetched ++ [url], urls := s.urls ++ [url] }
    | .ok doc =>
      let s1 : State :=
        { s with fetched := s.fetched ++ [url],
                 urlManager := s.urlManager.markAsVisited url }
      let s2 := parse env doc s1
      { s2 with result := s2.result ++ ["Visited: " ++ url] }

/-- The loop of `worker`, for at most `n` jobs: receive the next string of the
job channel and crawl it. The channel `done` is never written nor closed, so
the `default` branch is always taken. With nothing to receive the worker waits. -/
def worker (env : Env) : Nat → State → State
  | 0, s => s
  | n + 1, s =>
    match s.urls with
    | [] => s
    | u :: rest => worker env n (crawl env u { s with urls := rest })

/-- The state `main` starts the workers in, with `seed` sent on the job channel. -/
def seeded (seed : String) : State :=
  { urlManager := urlManager, urls := [seed], result := [], fetched := [] }

/-- The function `main`, its workers handling at most `n` jobs. -/
def main (env : Env) (n : Nat) : State := worker env n (seeded "https://www.naver.com")

/-! ## Test sites -/

/-- An anchor element `<a href=...>` with no children. -/
def anchor (href : String) (next : Node) : Node :=
  .node .ElementNode "a" [⟨"", "href", href⟩] .nil next

/-- A document whose body holds the given nodes. -/
def page (body : Node) : Node :=
  .node .DocumentNode "" []
    (.node .ElementNode "html" [] (.node .ElementNode "body" [] body .nil) .nil) .nil

/-- The document found at an address of a test site. -/
def lookupPage : List (String × Node) → String → Except String Node
  | [], _ => .error "no such page"
  | (k, d) :: rest, u => if k = u then .ok d else lookupPage rest u

/-- A test site: `url.Parse` finds a host exactly in the strings of `hosts`
and returns an empty host, without error, for the others (as it does for a
string without scheme and `//`, such as `not a url`); the first `down`
requests fail, every later request returns the address as the body, and the
body of an address parses to its document in `pages`. -/
def site (hosts : List String) (pages : List (String × Node)) (down : Nat) : Env where
  urlParse s := if s ∈ hosts then .ok ⟨"example.test"⟩ else .ok ⟨""⟩
  httpGet n u := if n < down then .error "connection refused" else .ok u
  htmlParse body := lookupPage pages body

/-- The address of the first page of the test sites. -/
def pageA : String := "https://example.test/a"

/-- The address of the second page of the test sites. -/
def pageB : String := "https://example.test/b"

/-- A site that is always up: page a has an anchor to page b and an anchor to
the string `not a url`, page b has no anchor. -/
def siteLinks : Env :=
  site [pageA, pageB]
    [(pageA, page (anchor pageB (anchor "not a url" .nil))), (pageB, page .nil)] 0

/-- A site that is always up: page a has an anchor to page b, and page b an
anchor to page a. -/
def siteCycle : Env :=
  site [pageA, pageB]
    [(pageA, page (anchor pageB .nil)), (pageB, page (anchor pageA .nil))] 0

/-- A site whose first request fails and whose later requests succeed: page a
has an anchor to itself. -/
def siteSelfLink : Env :=
  site [pageA] [(pageA, page (anchor pageA .nil))] 1

/-- A site whose first request fails and whose later requests succeed: page a
has no anchor. -/
def siteRetry : Env :=
  site [pageA] [(pageA, page .nil)] 1

/-! ## Sequences of operations -/

/-- One call of a method of `UrlManager`. -/
inductive FrontierOp where
  | addUrl (url : String)
  | markAsVisited (url : String)
  | isVisited (url : String)
deriving DecidableEq, Repr

/-- The `UrlManager` after one call. -/
def FrontierOp.apply (env : Env) (m : UrlManager) : FrontierOp → UrlManager
  | .addUrl url => m.addUrl env url
  | .markAsVisited url => m.markAsVisited url
  | .isVisited _ => m

/-- The `UrlManager` after a sequence of calls. -/
def applyOps (env : Env) (m : UrlManager) (ops : List FrontierOp) : UrlManager :=
  ops.foldl (FrontierOp.apply env) m

/-- One step of the crawler on the shared state: a call of a method of
`UrlManager`, of `parse` on a document, or of `crawl` on a string. -/
inductive CrawlerOp where
  | addUrl (url : String)
  | markAsVisited (url : String)
  | isVisited (url : String)
  | parse (doc : Node)
  | crawl (url : String)
deriving DecidableEq, Repr

/-- The shared state after one step. -/
def CrawlerOp.apply (env : Env) (s : State) : CrawlerOp → State
  | .addUrl url => { s with urlManager := s.urlManager.addUrl env url }
  | .markAsVisited url => { s with urlManager := s.urlManager.markAsVisited url }
  | .isVisited _ => s
  | .parse doc => Grawler.parse env doc s
  | .crawl url => Grawler.crawl env url s

/-- The shared state after a sequence of steps. -/
def runOps (env : Env) (s : State) (ops : List CrawlerOp) : State :=
  ops.foldl (CrawlerOp.apply env) s

/-! ## Link discovery, as the specification words it -/

/-- The nodes reached from `c` through first-child and next-sibling pointers,
in depth-first pre-order: type, tag name and attributes of each. -/
def preorderFrom : Node → List (NodeType × String × List Attribute)
  | .nil => []
  | .node typ data attr firstChild nextSibling =>
    (typ, data, attr) :: (preorderFrom firstChild ++ preorderFrom nextSibling)

/-- The nodes of the tree rooted at `doc`, in depth-first pre-order. -/
def preorder : Node → List (NodeType × String × List Attribute)
  | .nil => []
  | .node typ data attr firstChild _ => (typ, data, attr) :: preorderFrom firstChild

/-- The values of the `href` attributes of one node that pass
`checkUrlValidation`, in the order of the attributes. -/
def validHrefs (env : Env) (attr : List Attribute) : List String :=
  (attr.filter (fun a => a.Key == "href" && checkUrlValidation env a.Val)).map Attribute.Val

/-- The valid `href` values of one node: those of its attributes when it is
an element node named `a`, none otherwise. -/
def nodeHrefs (env : Env) (n : NodeType × String × List Attribute) : List String :=
  if n.1 == NodeType.ElementNode && n.2.1 == "a" then validHrefs env n.2.2 else []

/-- The valid `href` values of the element nodes named `a` of a document, in
depth-first pre-order, one for each such attribute. -/
def anchorHrefs (env : Env) (doc : Node) : List String :=
  ((preorder doc).map (nodeHrefs env)).flatten

/-- The same list for the nodes reached from `c`. -/
def anchorHrefsFrom (env : Env) (c : Node) : List String :=
  ((preorderFrom c).map (nodeHrefs env)).flatten

/-- Calling `addUrl` on each string of a list, in order. -/
def addUrls (env : Env) (m : UrlManager) (l : List String) : UrlManager :=
  l.foldl (fun m u => m.addUrl env u) m

/-- Registering each string of a list with `addUrl` and sending it on the job
channel. -/
def discover (env : Env) (l : List String) (s : State) : State :=
  { s with urlManager := addUrls env s.urlManager l, urls := s.urls ++ l }

/-! ## The Go map -/

theorem mapGet_mapSet (d : List (String × Nat)) (k k' : String) (v : Nat) :
    mapGet (mapSet d k v) k' = if k' = k then v else mapGet d k' := by
  induction d with
  | nil =>
    by_cases h : k' = k
    · simp [mapSet, mapGet, h]
    · have h' : ¬ k = k' := fun e => h e.symm
      simp [mapSet, mapGet, h, h']
  | cons kv rest ih =>
    obtain ⟨a, b⟩ := kv
    by_cases ha : a = k
    · subst ha
      by_cases h : k' = a
      · simp [mapSet, mapGet, h]
      · have h' : ¬ a = k' := fun e => h e.symm
        simp [mapSet, mapGet, h, h']
    · by_cases hk : a = k'
      · subst hk
        simp [mapSet, mapGet, ha]
      · simp [mapSet, mapGet, ha, hk, ih]

theorem mapGet_of_not_mem (d : List (String × Nat)) (k : String)
    (h : k ∉ mapKeys d) : mapGet d k = 0 := by
  induction d with
  | nil => rfl
  | cons kv rest ih =>
    obtain ⟨a, b⟩ := kv
    simp only [mapKeys, List.map_cons, List.mem_cons, not_or] at h
    have ha : ¬ a = k := fun e => h.1 e.symm
    simp only [mapGet, ha, if_false]
    exact ih h.2

theorem mem_mapKeys_of_mapGet_ne_zero (d : List (String × Nat)) (k : String)
    (h : mapGet d k ≠ 0) : k ∈ mapKeys d := by
  by_contra hk
  exact h (mapGet_of_not_mem d k hk)

theorem mapSet_of_not_mem (d : List (String × Nat)) (k : String) (v : Nat)
    (h : k ∉ mapKeys d) : mapSet d k v = d ++ [(k, v)] := by
  induction d with
  | nil => rfl
  | cons kv rest ih =>
    obtain ⟨a, b⟩ := kv
    simp only [mapKeys, List.map_cons, List.mem_cons, not_or] at h
    have ha : ¬ a = k := fun e => h.1 e.symm
    simp only [mapSet, ha, if_false, List.cons_append]
    rw [ih h.2]

theorem mapKeys_mapSet_of_mem (d : List (String × Nat)) (k : String) (v : Nat)
    (h : k ∈ mapKeys d) : mapKeys (mapSet d k v) = mapKeys d := by
  induction d with
  | nil => simp [mapKeys] at h
  | cons kv rest ih =>
    obtain ⟨a, b⟩ := kv
    by_cases ha : a = k
    · simp [mapSet, mapKeys, ha]
    · have hk : k ∈ mapKeys rest := by
        simp only [mapKeys, List.map_cons, List.mem_cons] at h
        rcases h with h | h
        · exact absurd h.symm ha
        · exact h
      have := ih hk
      simp only [mapKeys] at this
      simp [mapSet, mapKeys, ha, this]

theorem mapKeys_mapSet (d : List (String × Nat)) (k : String) (v : Nat) :
    mapKeys (mapSet d k v) = if k ∈ mapKeys d then mapKeys d else mapKeys d ++ [k] := by
  by_cases h : k ∈ mapKeys d
  · rw [if_pos h, mapKeys_mapSet_of_mem d k v h]
  · rw [if_neg h, mapSet_of_not_mem d k v h]
    simp [mapKeys]

theorem mem_mapKeys_mapSet (d : List (String × Nat)) (k k' : String) (v : Nat) :
    k' ∈ mapKeys (mapSet d k v) ↔ k' = k ∨ k' ∈ mapKeys d := by
  rw [mapKeys_mapSet]
  by_cases h : k ∈ mapKeys d
  · rw [if_pos h]
    constructor
    · exact fun hk => Or.inr hk
    · rintro (rfl | hk)
      · exact h
      · exact hk
  · rw [if_neg h]
    simp [or_comm]

theorem nodup_mapKeys_mapSet (d : List (String × Nat)) (k : String) (v : Nat)
    (h : (mapKeys d).Nodup) : (mapKeys (mapSet d k v)).Nodup := by
  rw [mapKeys_mapSet]
  by_cases hk : k ∈ mapKeys d
  · rw [if_pos hk]
    exact h
  · rw [if_neg hk]
    exact List.Nodup.append h (List.nodup_singleton k) (by simpa using hk)

/-! ## The methods of UrlManager -/

theorem addUrl_eq_of_invalid (env : Env) (m : UrlManager) (u : String)
    (h : checkUrlValidation env u = false) : m.addUrl env u = m := by
  simp [UrlManager.addUrl, h]

theorem addUrl_eq_of_entry (env : Env) (m : UrlManager) (u : String)
    (h : mapGet m.data u ≠ 0) : m.addUrl env u = m := by
  simp [UrlManager.addUrl, h]

theorem addUrl_data_of_new (env : Env) (m : UrlManager) (u : String)
    (hv : checkUrlValidation env u = true) (h : mapGet m.data u = 0) :
    (m.addUrl env u).data = mapSet m.data u UNVISITED := by
  simp [UrlManager.addUrl, hv, h]

theorem mapGet_addUrl (env : Env) (m : UrlManager) (u v : String) :
    mapGet (m.addUrl env u).data v =
      if v = u ∧ checkUrlValidation env u = true ∧ mapGet m.data u = 0 then UNVISITED
      else mapGet m.data v := by
  by_cases hv : checkUrlValidation env u = true
  · by_cases h : mapGet m.data u = 0
    · rw [addUrl_data_of_new env m u hv h, mapGet_mapSet]
      by_cases e : v = u <;> simp [e, hv, h]
    · rw [addUrl_eq_of_entry env m u h]
      simp [h]
  · have hv' : checkUrlValidation env u = false := by simpa using hv
    rw [addUrl_eq_of_invalid env m u hv']
    simp [hv']

theorem markAsVisited_eq_of_ne (m : UrlManager) (u : String)
    (h : mapGet m.data u ≠ UNVISITED) : m.markAsVisited u = m := by
  simp [UrlManager.markAsVisited, h]

theorem markAsVisited_data_of_unvisited (m : UrlManager) (u : String)
    (h : mapGet m.data u = UNVISITED) :
    (m.markAsVisited u).data = mapSet m.data u VISITED := by
  simp [UrlManager.markAsVisited, h]

theorem mapGet_markAsVisited (m : UrlManager) (u v : String) :
    mapGet (m.markAsVisited u).data v =
      if v = u ∧ mapGet m.data u = UNVISITED then VISITED else mapGet m.data v := by
  by_cases h : mapGet m.data u = UNVISITED
  · rw [markAsVisited_data_of_unvisited m u h, mapGet_mapSet]
    by_cases e : v = u <;> simp [e, h]
  · rw [markAsVisited_eq_of_ne m u h]
    simp [h]

theorem mapKeys_markAsVisited (m : UrlManager) (u : String) :
    mapKeys (m.markAsVisited u).data = mapKeys m.data := by
  by_cases h : mapGet m.data u = UNVISITED
  · rw [markAsVisited_data_of_unvisited m u h]
    apply mapKeys_mapSet_of_mem
    apply mem_mapKeys_of_mapGet_ne_zero
    rw [h]
    decide
  · rw [markAsVisited_eq_of_ne m u h]

theorem mem_mapKeys_addUrl (env : Env) (m : UrlManager) (u v : String)
    (h : v ∈ mapKeys (m.addUrl env u).data) :
    v ∈ mapKeys m.data ∨ (v = u ∧ checkUrlValidation env u = true) := by
  by_cases hv : checkUrlValidation env u = true
  · by_cases h0 : mapGet m.data u = 0
    · rw [addUrl_data_of_new env m u hv h0, mem_mapKeys_mapSet] at h
      rcases h with h | h
      · exact Or.inr ⟨h, hv⟩
      · exact Or.inl h
    · rw [addUrl_eq_of_entry env m u h0] at h
      exact Or.inl h
  · have hv' : checkUrlValidation env u = false := by simpa using hv
    rw [addUrl_eq_of_invalid env m u hv'] at h
    exact Or.inl h

theorem mapKeys_subset_addUrl (env : Env) (m : UrlManager) (u v : String)
    (h : v ∈ mapKeys m.data) : v ∈ mapKeys (m.addUrl env u).data := by
  by_cases hc : checkUrlValidation env u = true ∧ mapGet m.data u = 0
  · rw [addUrl_data_of_new env m u hc.1 hc.2, mem_mapKeys_mapSet]
    exact Or.inr h
  · have : m.addUrl env u = m := by
      simp only [UrlManager.addUrl]
      rw [if_neg]
      simpa using hc
    rw [this]
    exact h

theorem nodup_mapKeys_addUrl (env : Env) (m : UrlManager) (u : String)
    (h : (mapKeys m.data).Nodup) : (mapKeys (m.addUrl env u).data).Nodup := by
  by_cases hc : checkUrlValidation env u = true ∧ mapGet m.data u = 0
  · rw [addUrl_data_of_new env m u hc.1 hc.2]
    exact nodup_mapKeys_mapSet _ _ _ h
  · have : m.addUrl env u = m := by
      simp only [UrlManager.addUrl]
      rw [if_neg]
      simpa using hc
    rw [this]
    exact h

theorem isVisited_apply (env : Env) (m : UrlManager) (op : FrontierOp) (u : String)
    (h : m.isVisited u = true) : (FrontierOp.apply env m op).isVisited u = true := by
  have hg : mapGet m.data u = VISITED := by simpa [UrlManager.isVisited] using h
  cases op with
  | addUrl w =>
    have : mapGet m.data u ≠ 0 := by rw [hg]; decide
    simp only [FrontierOp.apply, UrlManager.isVisited, mapGet_addUrl]
    by_cases c : u = w ∧ checkUrlValidation env w = true ∧ mapGet m.data w = 0
    · exact absurd (c.1 ▸ c.2.2) this
    · rw [if_neg c, hg]
      rfl
  | markAsVisited w =>
    simp only [FrontierOp.apply, UrlManager.isVisited, mapGet_markAsVisited]
    by_cases c : u = w ∧ mapGet m.data w = UNVISITED
    · rw [if_pos c]
      rfl
    · rw [if_neg c, hg]
      rfl
  | isVisited w => exact h

theorem mem_mapKeys_apply (env : Env) (m : UrlManager) (op : FrontierOp) (u : String)
    (h : u ∈ mapKeys m.data) : u ∈ mapKeys (FrontierOp.apply env m op).data := by
  cases op with
  | addUrl w => exact mapKeys_subset_addUrl env m w u h
  | markAsVisited w =>
    simp only [FrontierOp.apply]
    rw [mapKeys_markAsVisited]
    exact h
  | isVisited w => exact h

theorem mapGet_ne_zero_apply (env : Env) (m : UrlManager) (op : FrontierOp) (u : String)
    (h : mapGet m.data u ≠ 0) : mapGet (FrontierOp.apply env m op).data u ≠ 0 := by
  cases op with
  | addUrl w =>
    simp only [FrontierOp.apply, mapGet_addUrl]
    split
    · decide
    · exact h
  | markAsVisited w =>
    simp only [FrontierOp.apply, mapGet_markAsVisited]
    split
    · decide
    · exact h
  | isVisited w => exact h

theorem nodup_mapKeys_apply (env : Env) (m : UrlManager) (op : FrontierOp)
    (h : (mapKeys m.data).Nodup) : (mapKeys (FrontierOp.apply env m op).data).Nodup := by
  cases op with
  | addUrl w => exact nodup_mapKeys_addUrl env m w h
  | markAsVisited w =>
    simp only [FrontierOp.apply]
    rw [mapKeys_markAsVisited]
    exact h
  | isVisited w => exact h

theorem applyOps_cons (env : Env) (m : UrlManager) (op : FrontierOp) (ops : List FrontierOp) :
    applyOps env m (op :: ops) = applyOps env (FrontierOp.apply env m op) ops := rfl

/-- C3: `addUrl(u)` on a valid `u` without entry appends the single entry
`(u, UNVISITED)` and every other address reads as before; on an invalid `u`,
or on a `u` that has an entry in state Unvisited or Visited, the map is
returned unchanged; calling `addUrl(u)` twice gives the same map as calling it once. -/
theorem addUrl_contract (env : Env) (m : UrlManager) (u : String) :
    (checkUrlValidation env u = true → u ∉ mapKeys m.data →
      (m.addUrl env u).data = m.data ++ [(u, UNVISITED)] ∧
      ∀ v, v ≠ u → mapGet (m.addUrl env u).data v = mapGet m.data v) ∧
    (checkUrlValidation env u = false ∨ mapGet m.data u = UNVISITED ∨
        mapGet m.data u = VISITED → m.addUrl env u = m) ∧
    (m.addUrl env u).addUrl env u = m.addUrl env u := by
  refine ⟨?_, ?_, ?_⟩
  · intro hv hk
    have h0 := mapGet_of_not_mem m.data u hk
    refine ⟨?_, ?_⟩
    · rw [addUrl_data_of_new env m u hv h0, mapSet_of_not_mem m.data u UNVISITED hk]
    · intro v hvu
      rw [mapGet_addUrl]
      simp [hvu]
  · rintro (h | h | h)
    · exact addUrl_eq_of_invalid env m u h
    · exact addUrl_eq_of_entry env m u (by rw [h]; decide)
    · exact addUrl_eq_of_entry env m u (by rw [h]; decide)
  · by_cases hc : checkUrlValidation env u = true ∧ mapGet m.data u = 0
    · apply addUrl_eq_of_entry
      rw [mapGet_addUrl, if_pos ⟨rfl, hc.1, hc.2⟩]
      decide
    · have : m.addUrl env u = m := by
        simp only [UrlManager.addUrl]
        rw [if_neg]
        simpa using hc
      rw [this, this]

/-- C4: `markAsVisited(u)` on an entry in state Unvisited sets it to Visited,
every other address reads as before and the set of keys is the same; when `u`
does not read Unvisited (already Visited, or no entry) the map is returned
unchanged, and an address without entry still has none. -/
theorem markAsVisited_contract (m : UrlManager) (u : String) :
    (mapGet m.data u = UNVISITED →
      mapGet (m.markAsVisited u).data u = VISITED ∧
      (∀ v, v ≠ u → mapGet (m.markAsVisited u).data v = mapGet m.data v) ∧
      mapKeys (m.markAsVisited u).data = mapKeys m.data) ∧
    (mapGet m.data u ≠ UNVISITED → m.markAsVisited u = m) ∧
    (u ∉ mapKeys m.data →
      m.markAsVisited u = m ∧ u ∉ mapKeys (m.markAsVisited u).data) := by
  refine ⟨?_, ?_, ?_⟩
  · intro h
    refine ⟨?_, ?_, mapKeys_markAsVisited m u⟩
    · rw [mapGet_markAsVisited, if_pos ⟨rfl, h⟩]
    · intro v hvu
      rw [mapGet_markAsVisited]
      simp [hvu]
  · exact markAsVisited_eq_of_ne m u
  · intro hk
    have h0 := mapGet_of_not_mem m.data u hk
    have : m.markAsVisited u = m := markAsVisited_eq_of_ne m u (by rw [h0]; decide)
    rw [this]
    exact ⟨rfl, hk⟩

/-- C5: along any sequence of `addUrl`, `markAsVisited` and `isVisited` calls,
an address that is Visited stays Visited, an address that has an entry keeps
one (and keeps reading as present), and the keys stay free of duplicates (one
entry for each address); from the empty map the keys are always free of
duplicates. -/
theorem frontier_monotone (env : Env) (m : UrlManager) (ops : List FrontierOp) (u : String) :
    (m.isVisited u = true → (applyOps env m ops).isVisited u = true) ∧
    (u ∈ mapKeys m.data → u ∈ mapKeys (applyOps env m ops).data) ∧
    (mapGet m.data u ≠ 0 → mapGet (applyOps env m ops).data u ≠ 0) ∧
    ((mapKeys m.data).Nodup → (mapKeys (applyOps env m ops).data).Nodup) ∧
    (mapKeys (applyOps env urlManager ops).data).Nodup := by
  have key : ∀ (l : List FrontierOp) (m : UrlManager),
      (m.isVisited u = true → (applyOps env m l).isVisited u = true) ∧
      (u ∈ mapKeys m.data → u ∈ mapKeys (applyOps env m l).data) ∧
      (mapGet m.data u ≠ 0 → mapGet (applyOps env m l).data u ≠ 0) ∧
      ((mapKeys m.data).Nodup → (mapKeys (applyOps env m l).data).Nodup) := by
    intro l
    induction l with
    | nil => intro m; exact ⟨id, id, id, id⟩
    | cons op rest ih =>
      intro m
      have h := ih (FrontierOp.apply env m op)
      rw [applyOps_cons]
      exact ⟨fun hv => h.1 (isVisited_apply env m op u hv),
        fun hk => h.2.1 (mem_mapKeys_apply env m op u hk),
        fun hz => h.2.2.1 (mapGet_ne_zero_apply env m op u hz),
        fun hn => h.2.2.2 (nodup_mapKeys_apply env m op hn)⟩
  refine ⟨(key ops m).1, (key ops m).2.1, (key ops m).2.2.1, (key ops m).2.2.2, ?_⟩
  exact (key ops urlManager).2.2.2 (by simp [urlManager, mapKeys])

/-! ## The walk of parse -/

theorem discover_nil (env : Env) (s : State) : discover env [] s = s := by
  simp [discover, addUrls]

theorem discover_append (env : Env) (l₁ l₂ : List String) (s : State) :
    discover env (l₁ ++ l₂) s = discover env l₂ (discover env l₁ s) := by
  simp [discover, addUrls, List.foldl_append]

theorem discover_cons (env : Env) (u : String) (l : List String) (s : State) :
    discover env (u :: l) s =
      discover env l { s with urlManager := s.urlManager.addUrl env u,
                              urls := s.urls ++ [u] } := by
  simp [discover, addUrls]

theorem pAttr_eq (env : Env) (attr : List Attribute) (s : State) :
    pAttr env attr s = discover env (validHrefs env attr) s := by
  induction attr generalizing s with
  | nil => simp [pAttr, validHrefs, discover_nil]
  | cons a rest ih =>
    by_cases h : (a.Key == "href" && checkUrlValidation env a.Val) = true
    · have e : validHrefs env (a :: rest) = a.Val :: validHrefs env rest := by
        simp only [validHrefs, List.filter_cons, h, if_true, List.map_cons]
      rw [e, discover_cons, pAttr, if_pos h, ih]
    · have e : validHrefs env (a :: rest) = validHrefs env rest := by
        simp only [validHrefs, List.filter_cons, h]
        rfl
      rw [e, pAttr, if_neg h, ih]

theorem pNode_eq (env : Env) (typ : NodeType) (data : String) (attr : List Attribute)
    (s : State) : pNode env typ data attr s = discover env (nodeHrefs env (typ, data, attr)) s := by
  by_cases h : (typ == NodeType.ElementNode && data == "a") = true
  · simp only [pNode, nodeHrefs, h, if_true]
    exact pAttr_eq env attr s
  · simp only [pNode, nodeHrefs, h]
    exact (discover_nil env s).symm

theorem pSiblings_eq (env : Env) (c : Node) (s : State) :
    pSiblings env c s = discover env (anchorHrefsFrom env c) s := by
  induction c generalizing s with
  | nil => simp [pSiblings, anchorHrefsFrom, preorderFrom, discover_nil]
  | node typ data attr firstChild nextSibling ih₁ ih₂ =>
    have e : anchorHrefsFrom env (.node typ data attr firstChild nextSibling) =
        nodeHrefs env (typ, data, attr) ++
          (anchorHrefsFrom env firstChild ++ anchorHrefsFrom env nextSibling) := by
      simp [anchorHrefsFrom, preorderFrom]
    rw [e, discover_append, discover_append, pSiblings, ih₂, ih₁, pNode_eq]

theorem parse_eq (env : Env) (doc : Node) (s : State) :
    parse env doc s = discover env (anchorHrefs env doc) s := by
  cases doc with
  | nil => simp [parse, p, anchorHrefs, preorder, discover_nil]
  | node typ data attr firstChild nextSibling =>
    have e : anchorHrefs env (.node typ data attr firstChild nextSibling) =
        nodeHrefs env (typ, data, attr) ++ anchorHrefsFrom env firstChild := by
      simp [anchorHrefs, anchorHrefsFrom, preorder]
    rw [e, discover_append, parse, p, pSiblings_eq, pNode_eq]

theorem valid_of_mem_validHrefs (env : Env) (attr : List Attribute) (u : String)
    (h : u ∈ validHrefs env attr) : checkUrlValidation env u = true := by
  simp only [validHrefs, List.mem_map, List.mem_filter] at h
  obtain ⟨a, ⟨_, ha⟩, rfl⟩ := h
  simp only [Bool.and_eq_true] at ha
  exact ha.2

theorem valid_of_mem_nodeHrefs (env : Env) (n : NodeType × String × List Attribute)
    (u : String) (h : u ∈ nodeHrefs env n) : checkUrlValidation env u = true := by
  unfold nodeHrefs at h
  split at h
  · exact valid_of_mem_validHrefs env _ u h
  · simp at h

theorem valid_of_mem_anchorHrefs (env : Env) (doc : Node) (u : String)
    (h : u ∈ anchorHrefs env doc) : checkUrlValidation env u = true := by
  simp only [anchorHrefs, List.mem_flatten, List.mem_map] at h
  obtain ⟨l, ⟨n, _, rfl⟩, hu⟩ := h
  exact valid_of_mem_nodeHrefs env n u hu

theorem addUrls_cons (env : Env) (m : UrlManager) (u : String) (l : List String) :
    addUrls env m (u :: l) = addUrls env (m.addUrl env u) l := rfl

theorem mapGet_addUrls (env : Env) (l : List String) (m : UrlManager) (v : String) :
    mapGet (addUrls env m l).data v =
      if mapGet m.data v = 0 ∧ v ∈ l ∧ checkUrlValidation env v = true then UNVISITED
      else mapGet m.data v := by
  induction l generalizing m with
  | nil => simp [addUrls]
  | cons u rest ih =>
    rw [addUrls_cons, ih, mapGet_addUrl]
    by_cases e : v = u
    · subst e
      by_cases h0 : mapGet m.data v = 0
      · by_cases hv : checkUrlValidation env v = true
        · simp [h0, hv, UNVISITED]
        · simp [h0, hv]
      · simp [h0]
    · simp [e]

theorem mem_mapKeys_addUrls (env : Env) (l : List String) (m : UrlManager) (v : String)
    (h : v ∈ mapKeys (addUrls env m l).data) :
    v ∈ mapKeys m.data ∨ (v ∈ l ∧ checkUrlValidation env v = true) := by
  induction l generalizing m with
  | nil => exact Or.inl h
  | cons u rest ih =>
    rw [addUrls_cons] at h
    rcases ih _ h with h' | h'
    · rcases mem_mapKeys_addUrl env m u v h' with h'' | h''
      · exact Or.inl h''
      · exact Or.inr ⟨by simp [h''.1], h''.1 ▸ h''.2⟩
    · exact Or.inr ⟨List.mem_cons_of_mem _ h'.1, h'.2⟩

/-! ## crawl -/

theorem crawl_of_visited (env : Env) (u : String) (s : State)
    (h : s.urlManager.isVisited u = true) : crawl env u s = s := by
  simp [crawl, h]

theorem crawl_of_error (env : Env) (u : String) (s : State) (err : String)
    (h : s.urlManager.isVisited u = false)
    (hf : fetch env s.fetched.length u = .error err) :
    crawl env u s = { s with fetched := s.fetched ++ [u], urls := s.urls ++ [u] } := by
  simp [crawl, h, hf]

theorem crawl_of_ok (env : Env) (u : String) (s : State) (doc : Node)
    (h : s.urlManager.isVisited u = false)
    (hf : fetch env s.fetched.length u = .ok doc) :
    crawl env u s =
      { urlManager := addUrls env (s.urlManager.markAsVisited u) (anchorHrefs env doc),
        urls := s.urls ++ anchorHrefs env doc,
        result := s.result ++ ["Visited: " ++ u],
        fetched := s.fetched ++ [u] } := by
  simp [crawl, h, hf, parse_eq, discover]

theorem isVisited_false_of_not_mem (m : UrlManager) (u : String)
    (h : u ∉ mapKeys m.data) : m.isVisited u = false := by
  simp [UrlManager.isVisited, mapGet_of_not_mem m.data u h, VISITED]

theorem allValid_apply (env : Env) (s : State) (op : CrawlerOp)
    (h : ∀ v ∈ mapKeys s.urlManager.data, checkUrlValidation env v = true) :
    ∀ v ∈ mapKeys (CrawlerOp.apply env s op).urlManager.data,
      checkUrlValidation env v = true := by
  intro v hv
  cases op with
  | addUrl w =>
    rcases mem_mapKeys_addUrl env s.urlManager w v hv with h' | h'
    · exact h v h'
    · exact h'.1 ▸ h'.2
  | markAsVisited w =>
    simp only [CrawlerOp.apply] at hv
    rw [mapKeys_markAsVisited] at hv
    exact h v hv
  | isVisited w => exact h v hv
  | parse doc =>
    simp only [CrawlerOp.apply, parse_eq, discover] at hv
    rcases mem_mapKeys_addUrls env _ _ v hv with h' | h'
    · exact h v h'
    · exact h'.2
  | crawl w =>
    simp only [CrawlerOp.apply] at hv
    by_cases hvis : s.urlManager.isVisited w = true
    · rw [crawl_of_visited env w s hvis] at hv
      exact h v hv
    · have hvis' : s.urlManager.isVisited w = false := by simpa using hvis
      cases hf : fetch env s.fetched.length w with
      | error err =>
        rw [crawl_of_error env w s err hvis' hf] at hv
        exact h v hv
      | ok doc =>
        rw [crawl_of_ok env w s doc hvis' hf] at hv
        rcases mem_mapKeys_addUrls env _ _ v hv with h' | h'
        · rw [mapKeys_markAsVisited] at h'
          exact h v h'
        · exact h'.2

theorem runOps_cons (env : Env) (s : State) (op : CrawlerOp) (ops : List CrawlerOp) :
    runOps env s (op :: ops) = runOps env (CrawlerOp.apply env s op) ops := rfl

theorem allValid_runOps (env : Env) (ops : List CrawlerOp) (s : State)
    (h : ∀ v ∈ mapKeys s.urlManager.data, checkUrlValidation env v = true) :
    ∀ v ∈ mapKeys (runOps env s ops).urlManager.data, checkUrlValidation env v = true := by
  induction ops generalizing s with
  | nil => exact h
  | cons op rest ih =>
    rw [runOps_cons]
    exact ih _ (allValid_apply env s op h)

theorem checkUrlValidation_iff (env : Env) (u : String) :
    checkUrlValidation env u = true ↔ ∃ url, env.urlParse u = .ok url ∧ url.Host ≠ "" := by
  unfold checkUrlValidation
  cases h : env.urlParse u with
  | error e => simp
  | ok url =>
    obtain ⟨host⟩ := url
    simp only [decide_eq_true_eq, Except.ok.injEq, exists_eq_left', ne_eq]
    rw [gt_iff_lt, String.length, List.length_pos]
    constructor
    · intro hne e
      apply hne
      rw [e]
    · intro hne e
      apply hne
      cases host
      simp_all

/-- C9: the strings `parse` sends on the job channel are, in order, the valid
`href` values of the element nodes named `a` in depth-first pre-order; after
the walk each of them has an entry, those that read as absent before are
Unvisited, and every address that had a state before reads the same. -/
theorem parse_link_discovery (env : Env) (doc : Node) (s : State) :
    (parse env doc s).urls = s.urls ++ anchorHrefs env doc ∧
    (∀ h ∈ anchorHrefs env doc,
      h ∈ mapKeys (parse env doc s).urlManager.data ∧
      mapGet (parse env doc s).urlManager.data h ≠ 0) ∧
    (∀ h ∈ anchorHrefs env doc, mapGet s.urlManager.data h = 0 →
      mapGet (parse env doc s).urlManager.data h = UNVISITED) ∧
    (∀ v, mapGet s.urlManager.data v ≠ 0 →
      mapGet (parse env doc s).urlManager.data v = mapGet s.urlManager.data v) ∧
    (parse env doc s).result = s.result ∧ (parse env doc s).fetched = s.fetched := by
  rw [parse_eq]
  have hne : ∀ h ∈ anchorHrefs env doc,
      mapGet (discover env (anchorHrefs env doc) s).urlManager.data h ≠ 0 := by
    intro h hh
    simp only [discover, mapGet_addUrls]
    by_cases h0 : mapGet s.urlManager.data h = 0
    · rw [if_pos ⟨h0, hh, valid_of_mem_anchorHrefs env doc h hh⟩]
      decide
    · simp [h0]
  refine ⟨rfl, ?_, ?_, ?_, rfl, rfl⟩
  · intro h hh
    exact ⟨mem_mapKeys_of_mapGet_ne_zero _ _ (hne h hh), hne h hh⟩
  · intro h hh h0
    simp only [discover, mapGet_addUrls]
    rw [if_pos ⟨h0, hh, valid_of_mem_anchorHrefs env doc h hh⟩]
  · intro v hv
    simp only [discover, mapGet_addUrls]
    simp [hv]

/-- C6: from the empty map, after any sequence of `addUrl`, `markAsVisited`,
`isVisited`, `parse` and `crawl` steps, every key of the map passes
`checkUrlValidation`, so a string that fails it has no entry and reads as
absent; every string `parse` sends on the job channel passes it; and a string
passes it exactly when `url.Parse` returns no error and a host that is not empty. -/
theorem invalid_never_stored (env : Env) (urls result fetched : List String)
    (ops : List CrawlerOp) :
    (∀ u, checkUrlValidation env u = false →
      u ∉ mapKeys (runOps env ⟨urlManager, urls, result, fetched⟩ ops).urlManager.data ∧
      mapGet (runOps env ⟨urlManager, urls, result, fetched⟩ ops).urlManager.data u = 0) ∧
    (∀ (doc : Node) (s : State), ∃ sent, (parse env doc s).urls = s.urls ++ sent ∧
      ∀ u ∈ sent, checkUrlValidation env u = true) ∧
    (∀ u, checkUrlValidation env u = true ↔
      ∃ url, env.urlParse u = .ok url ∧ url.Host ≠ "") := by
  refine ⟨?_, ?_, checkUrlValidation_iff env⟩
  · intro u hu
    have hk : u ∉ mapKeys (runOps env ⟨urlManager, urls, result, fetched⟩ ops).urlManager.data := by
      intro hmem
      have := allValid_runOps env ops ⟨urlManager, urls, result, fetched⟩
        (by simp [urlManager, mapKeys]) u hmem
      rw [hu] at this
      exact Bool.false_ne_true this
    exact ⟨hk, mapGet_of_not_mem _ _ hk⟩
  · intro doc s
    refine ⟨anchorHrefs env doc, ?_, valid_of_mem_anchorHrefs env doc⟩
    rw [parse_eq]
    rfl

/-- C7: `crawl(u)` on an address that `isVisited` reports as visited returns
the shared state as it was: no request is made, the map, the job channel and
the result channel are unchanged. -/
theorem crawl_visited_noop (env : Env) (u : String) (s : State)
    (h : s.urlManager.isVisited u = true) :
    crawl env u s = s ∧ (crawl env u s).fetched = s.fetched ∧
    (crawl env u s).urlManager = s.urlManager ∧ (crawl env u s).urls = s.urls ∧
    (crawl env u s).result = s.result := by
  rw [crawl_of_visited env u s h]
  exact ⟨rfl, rfl, rfl, rfl, rfl⟩

/-- C10: `crawl(u)` on an address without entry, whose request succeeds with a
document that has no valid anchor `href` equal to `u`, sends `Visited: u` on
the result channel and leaves `u` without entry: `isVisited(u)` is still false
and the next `crawl(u)` makes a request again. -/
theorem crawl_never_registers (env : Env) (u : String) (s : State) (doc : Node)
    (hk : u ∉ mapKeys s.urlManager.data)
    (hf : fetch env s.fetched.length u = .ok doc)
    (hl : u ∉ anchorHrefs env doc) :
    (crawl env u s).result = s.result ++ ["Visited: " ++ u] ∧
    u ∉ mapKeys (crawl env u s).urlManager.data ∧
    (crawl env u s).urlManager.isVisited u = false ∧
    (crawl env u (crawl env u s)).fetched = s.fetched ++ [u, u] := by
  have hvis := isVisited_false_of_not_mem s.urlManager u hk
  have hk' : u ∉ mapKeys (crawl env u s).urlManager.data := by
    rw [crawl_of_ok env u s doc hvis hf]
    intro hmem
    rcases mem_mapKeys_addUrls env _ _ u hmem with h' | h'
    · rw [mapKeys_markAsVisited] at h'
      exact hk h'
    · exact hl h'.1
  have hvis' := isVisited_false_of_not_mem (crawl env u s).urlManager u hk'
  refine ⟨?_, hk', hvis', ?_⟩
  · rw [crawl_of_ok env u s doc hvis hf]
  · have hfe : (crawl env u s).fetched = s.fetched ++ [u] := by
      rw [crawl_of_ok env u s doc hvis hf]
    cases hf2 : fetch env (crawl env u s).fetched.length u with
    | error err =>
      rw [crawl_of_error env u _ err hvis' hf2]
      simp [hfe]
    | ok doc2 =>
      rw [crawl_of_ok env u _ doc2 hvis' hf2]
      simp [hfe]

/-! ## The worker loop -/

theorem worker_of_drained (env : Env) (n : Nat) (s : State) (h : s.urls = []) :
    worker env n s = s := by
  cases n with
  | zero => rfl
  | succ n => simp [worker, h]

theorem worker_add (env : Env) (a b : Nat) (s : State) :
    worker env (a + b) s = worker env b (worker env a s) := by
  induction a generalizing s with
  | zero => simp [worker]
  | succ a ih =>
    cases hq : s.urls with
    | nil => rw [worker_of_drained env _ s hq, worker_of_drained env _ s hq,
        worker_of_drained env _ s hq]
    | cons u rest =>
      have e : a + 1 + b = (a + b) + 1 := by omega
      rw [e]
      simp only [worker, hq]
      exact ih _

theorem crawl_result_changes (env : Env) (u : String) (s : State)
    (h : (crawl env u s).result ≠ s.result) :
    ∃ doc, fetch env s.fetched.length u = .ok doc := by
  by_cases hvis : s.urlManager.isVisited u = true
  · rw [crawl_of_visited env u s hvis] at h
    exact absurd rfl h
  · have hvis' : s.urlManager.isVisited u = false := by simpa using hvis
    cases hf : fetch env s.fetched.length u with
    | error err =>
      rw [crawl_of_error env u s err hvis' hf] at h
      exact absurd rfl h
    | ok doc => exact ⟨doc, rfl⟩

/-! ## Runs of the crawler on the test sites -/

/-- C1: on the site where page a links to page b and page b links back, the
crawler seeded with page a drains the job channel in four jobs and has sent
three records, `Visited: a` twice: the seed has no entry when it is crawled, so
`markAsVisited` does nothing for it and the second job for it is not stopped.
Started with the seed registered by `addUrl`, as `parse` registers a link, the
same run sends each record once. -/
theorem cycle_seed_emitted_twice :
    worker siteCycle 4 (seeded pageA) =
      { urlManager := ⟨[(pageB, VISITED), (pageA, VISITED)]⟩,
        urls := [],
        result := ["Visited: https://example.test/a", "Visited: https://example.test/b",
          "Visited: https://example.test/a"],
        fetched := [pageA, pageB, pageA] } ∧
    (worker siteCycle 4 (seeded pageA)).result.count ("Visited: " ++ pageA) = 2 ∧
    (∀ n, worker siteCycle (4 + n) (seeded pageA) = worker siteCycle 4 (seeded pageA)) ∧
    worker siteCycle 3 { seeded pageA with urlManager := urlManager.addUrl siteCycle pageA } =
      { urlManager := ⟨[(pageA, VISITED), (pageB, VISITED)]⟩,
        urls := [],
        result := ["Visited: https://example.test/a", "Visited: https://example.test/b"],
        fetched := [pageA, pageB] } := by
  refine ⟨by decide, by decide, ?_, by decide⟩
  intro n
  rw [worker_add]
  exact worker_of_drained _ _ _ (by decide)

/-- C2: on the site where page a links to page b and to `not a url`, the
crawler seeded with page a drains the job channel in two jobs and has sent the
records of a and of b; the map ends with the single entry of page b, Visited:
the seed has no entry and is not reported as visited, and `not a url` has no
entry. -/
theorem links_seed_has_no_entry :
    worker siteLinks 2 (seeded pageA) =
      { urlManager := ⟨[(pageB, VISITED)]⟩,
        urls := [],
        result := ["Visited: https://example.test/a", "Visited: https://example.test/b"],
        fetched := [pageA, pageB] } ∧
    (worker siteLinks 2 (seeded pageA)).urlManager.data.length = 1 ∧
    pageA ∉ mapKeys (worker siteLinks 2 (seeded pageA)).urlManager.data ∧
    (worker siteLinks 2 (seeded pageA)).urlManager.isVisited pageA = false ∧
    "not a url" ∉ mapKeys (worker siteLinks 2 (seeded pageA)).urlManager.data ∧
    (∀ n, worker siteLinks (2 + n) (seeded pageA) = worker siteLinks 2 (seeded pageA)) := by
  refine ⟨by decide, by decide, by decide, by decide, by decide, ?_⟩
  intro n
  rw [worker_add]
  exact worker_of_drained _ _ _ (by decide)

/-- C8: a failed request makes `crawl` send the same address once more on the
job channel and nothing else changes but the count of requests; the result
channel changes only when the request succeeded. A seed without anchors whose
first request fails gets one record, after the second request. A seed with an
anchor to itself whose first request fails gets two records, after the second
and after the third request. -/
theorem fetch_failure_then_duplicate :
    (∀ (env : Env) (u : String) (s : State) (err : String),
      s.urlManager.isVisited u = false → fetch env s.fetched.length u = .error err →
      crawl env u s = { s with fetched := s.fetched ++ [u], urls := s.urls ++ [u] }) ∧
    (∀ (env : Env) (u : String) (s : State), (crawl env u s).result ≠ s.result →
      ∃ doc, fetch env s.fetched.length u = .ok doc) ∧
    worker siteRetry 1 (seeded pageA) =
      { urlManager := ⟨[]⟩, urls := [pageA], result := [], fetched := [pageA] } ∧
    worker siteRetry 2 (seeded pageA) =
      { urlManager := ⟨[]⟩, urls := [],
        result := ["Visited: https://example.test/a"], fetched := [pageA, pageA] } ∧
    worker siteSelfLink 1 (seeded pageA) =
      { urlManager := ⟨[]⟩, urls := [pageA], result := [], fetched := [pageA] } ∧
    worker siteSelfLink 4 (seeded pageA) =
      { urlManager := ⟨[(pageA, VISITED)]⟩, urls := [],
        result := ["Visited: https://example.test/a", "Visited: https://example.test/a"],
        fetched := [pageA, pageA, pageA] } := by
  refine ⟨?_, ?_, by decide, by decide, by decide, by decide⟩
  · intro env u s err h hf
    exact crawl_of_error env u s err h hf
  · intro env u s h
    exact crawl_result_changes env u s h

/-! ## Instances -/

theorem addUrl_contract_witness :
    (urlManager.addUrl siteLinks pageA).data = [(pageA, UNVISITED)] ∧
    (⟨[(pageA, VISITED)]⟩ : UrlManager).addUrl siteLinks pageA = ⟨[(pageA, VISITED)]⟩ ∧
    urlManager.addUrl siteLinks "not a url" = urlManager :=
  ⟨((addUrl_contract siteLinks urlManager pageA).1 (by decide) (by decide)).1,
    (addUrl_contract siteLinks ⟨[(pageA, VISITED)]⟩ pageA).2.1 (Or.inr (Or.inr (by decide))),
    (addUrl_contract siteLinks urlManager "not a url").2.1 (Or.inl (by decide))⟩

theorem markAsVisited_contract_witness :
    mapGet ((⟨[(pageA, UNVISITED)]⟩ : UrlManager).markAsVisited pageA).data pageA = VISITED ∧
    urlManager.markAsVisited pageA = urlManager :=
  ⟨((markAsVisited_contract ⟨[(pageA, UNVISITED)]⟩ pageA).1 (by decide)).1,
    ((markAsVisited_contract urlManager pageA).2.2 (by decide)).1⟩

theorem frontier_monotone_witness :
    (applyOps siteLinks ⟨[(pageA, VISITED)]⟩
      [.addUrl pageA, .markAsVisited pageA, .isVisited pageA, .addUrl pageB]).isVisited pageA
      = true :=
  (frontier_monotone siteLinks ⟨[(pageA, VISITED)]⟩
    [.addUrl pageA, .markAsVisited pageA, .isVisited pageA, .addUrl pageB] pageA).1 (by decide)

theorem invalid_never_stored_witness :
    checkUrlValidation siteLinks "not a url" = false ∧
    "not a url" ∉ mapKeys (runOps siteLinks ⟨urlManager, [], [], []⟩
      [.addUrl "not a url", .crawl pageA, .markAsVisited "not a url"]).urlManager.data :=
  ⟨by decide,
    ((invalid_never_stored siteLinks [] [] []
      [.addUrl "not a url", .crawl pageA, .markAsVisited "not a url"]).1
        "not a url" (by decide)).1⟩

theorem crawl_visited_noop_witness :
    (⟨[(pageA, VISITED)]⟩ : UrlManager).isVisited pageA = true ∧
    crawl siteCycle pageA ⟨⟨[(pageA, VISITED)]⟩, [pageB], [], [pageA]⟩ =
      ⟨⟨[(pageA, VISITED)]⟩, [pageB], [], [pageA]⟩ :=
  ⟨by decide,
    (crawl_visited_noop siteCycle pageA ⟨⟨[(pageA, VISITED)]⟩, [pageB], [], [pageA]⟩
      (by decide)).1⟩

theorem parse_link_discovery_witness :
    (parse siteLinks (page (anchor pageB (anchor "not a url" (anchor pageB .nil))))
      ⟨⟨[(pageB, VISITED)]⟩, [pageA], [], []⟩).urls = [pageA, pageB, pageB] :=
  (parse_link_discovery siteLinks (page (anchor pageB (anchor "not a url" (anchor pageB .nil))))
    ⟨⟨[(pageB, VISITED)]⟩, [pageA], [], []⟩).1

theorem crawl_never_registers_witness :
    pageA ∉ mapKeys (seeded pageA).urlManager.data ∧
    (crawl siteLinks pageA { seeded pageA with urls := [] }).result =
      ["Visited: https://example.test/a"] ∧
    (crawl siteLinks pageA { seeded pageA with urls := [] }).urlManager.isVisited pageA
      = false :=
  ⟨by decide,
    (crawl_never_registers siteLinks pageA { seeded pageA with urls := [] }
      (page (anchor pageB (anchor "not a url" .nil))) (by decide) rfl (by decide)).1,
    (crawl_never_registers siteLinks pageA { seeded pageA with urls := [] }
      (page (anchor pageB (anchor "not a url" .nil))) (by decide) rfl (by decide)).2.2.1⟩

end Grawler
